import Mathlib

/-!
Verification of `src/cleanup_script.py` from PyGrassReal-Parametric.

The script reads a file into a list of lines, scans them once with two
boolean flags (`skip`, `found_start`), collects the surviving lines in
`new_lines`, and writes `new_lines` back only when `found_start` is set.
We embed the loop body as a step function on an explicit state record and
the loop itself as a left fold, parametric in the two marker strings
(the source hardcodes them; see `startMarker` and `endMarker`).
-/

/-- Decides whether `pat` is a leading sublist of the character list
(elementwise equality on characters). -/
def charsPre : List Char → List Char → Bool
  | [], _ => true
  | _ :: _, [] => false
  | a :: as, b :: bs => a == b && charsPre as bs

/-- Decides whether the character list `pat` occurs as a contiguous
sublist of `l`, matching Python substring containment `pat in line`. -/
def charsSub (pat : List Char) : List Char → Bool
  | [] => charsPre pat []
  | c :: rest => charsPre pat (c :: rest) || charsSub pat rest

/-- Python `pat in line` (substring containment) on Lean strings. -/
def strContains (pat line : String) : Bool :=
  charsSub pat.data line.data

/-- The start marker hardcoded in the script, tested with
`"let angle = v1.angleTo(v2);" in line`. -/
def startMarker : String := "let angle = v1.angleTo(v2);"

/-- The end marker hardcoded in the script, tested with
`"targetRef.current.updateMatrixWorld();" in line`. -/
def endMarker : String := "targetRef.current.updateMatrixWorld();"

/-- The mutable state of the loop in the script: the accumulator
`new_lines`, and the two boolean flags `skip` and `found_start`. -/
structure ScanState where
  new_lines : List String
  skip : Bool
  found_start : Bool
  deriving DecidableEq, Repr

/-- One iteration of the loop in the script, for markers `s` and `e`:

    if s in line: found_start = True; skip = True
    if skip and e in line: skip = False; continue
    if not skip: new_lines.append(line)

Note the first test is not guarded by `skip`, and the second test is
applied to the same line that may just have set `skip`. -/
def processLine (s e : String) (st : ScanState) (line : String) : ScanState :=
  let st1 := if strContains s line then { st with found_start := true, skip := true } else st
  if st1.skip && strContains e line then
    { st1 with skip := false }
  else if !st1.skip then
    { st1 with new_lines := st1.new_lines ++ [line] }
  else
    st1

/-- The initial state: `new_lines = []`, `skip = False`, `found_start = False`. -/
def initState : ScanState := ⟨[], false, false⟩

/-- The whole loop: fold `processLine` over the lines of the file. -/
def runScan (s e : String) (lines : List String) : ScanState :=
  lines.foldl (processLine s e) initState

/-- The reported status: the script prints a success message when
`found_start` holds and a could-not-find message otherwise. -/
inductive Status where
  | success
  | notFound
  deriving DecidableEq, Repr

/-- Status reported by the script on the given input lines. -/
def runStatus (s e : String) (lines : List String) : Status :=
  if (runScan s e lines).found_start then .success else .notFound

/-- Content of the file after the run: the script overwrites the file
with `new_lines` only when `found_start` is set, else leaves it alone. -/
def finalLines (s e : String) (lines : List String) : List String :=
  if (runScan s e lines).found_start then (runScan s e lines).new_lines else lines

/-- Outcome of a whole run, distinguishing the non-throwing not-found
report (the spec calls it NotFoundError) from a successful write. -/
inductive RunOutcome where
  | success (written : List String)
  | notFoundError
  deriving DecidableEq, Repr

/-- The run as a total function into outcomes: the not-found branch is a
normal return (a printed report), not an abnormal termination. -/
def cleanupRun (s e : String) (lines : List String) : RunOutcome :=
  let st := runScan s e lines
  if st.found_start then .success st.new_lines else .notFoundError

/-- Recursive characterisation of the `new_lines` accumulated by the loop
when started with flag `skip`; proved equal to the fold below. -/
def scanGo (s e : String) : Bool → List String → List String
  | _, [] => []
  | skip, l :: rest =>
    let skip1 := skip || strContains s l
    if skip1 && strContains e l then scanGo s e false rest
    else if skip1 then scanGo s e true rest
    else l :: scanGo s e false rest

/-- Recursive characterisation of the final `skip` flag of the loop. -/
def skipEnd (s e : String) : Bool → List String → Bool
  | skip, [] => skip
  | skip, l :: rest =>
    let skip1 := skip || strContains s l
    if skip1 && strContains e l then skipEnd s e false rest
    else skipEnd s e skip1 rest

/-- Drops lines up to and including the first one containing `e`
(all of them when none does): the block skipped while `skip` is set. -/
def dropBlock (e : String) : List String → List String
  | [] => []
  | l :: rest => if strContains e l then rest else dropBlock e rest

/-- The per-line state machine of spec section 4.1 step 3, with mutually
exclusive branches. Modelled from the spec: `insideBlock`, `startFound`
and the four Else-if branches are the ones written there. -/
structure SpecState where
  output : List String
  insideBlock : Bool
  startFound : Bool
  deriving DecidableEq, Repr

/-- One transition of the spec state machine (spec section 4.1 step 3).
Modelled from the spec: the start test fires only while `insideBlock`
is false, and the end test only on later lines, never the same one. -/
def specStep (s e : String) (st : SpecState) (line : String) : SpecState :=
  if !st.insideBlock && strContains s line then
    { st with startFound := true, insideBlock := true }
  else if st.insideBlock && strContains e line then
    { st with insideBlock := false }
  else if st.insideBlock then
    st
  else
    { st with output := st.output ++ [line] }

/-- The spec state machine run on all lines from the initial state. -/
def specRun (s e : String) (lines : List String) : SpecState :=
  lines.foldl (specStep s e) ⟨[], false, false⟩

/-- Status reported by the spec state machine (spec section 4.1 step 4). -/
def specStatus (s e : String) (lines : List String) : Status :=
  if (specRun s e lines).startFound then .success else .notFound

/-- Closed form of one loop iteration on an explicit state. -/
theorem processLine_eq (s e line : String) (acc : List String) (skip f : Bool) :
    processLine s e ⟨acc, skip, f⟩ line =
      if (skip || strContains s line) && strContains e line then
        ⟨acc, false, f || strContains s line⟩
      else if skip || strContains s line then
        ⟨acc, true, f || strContains s line⟩
      else
        ⟨acc ++ [line], false, f || strContains s line⟩ := by
  cases hs : strContains s line <;> cases he : strContains e line <;> cases skip <;>
    simp [processLine, hs, he]

/-- The fold computing the loop, started from any state, splits into the
three recursive characterisations. -/
theorem foldl_processLine (s e : String) (lines : List String) :
    ∀ (acc : List String) (skip f : Bool),
      lines.foldl (processLine s e) ⟨acc, skip, f⟩ =
        ⟨acc ++ scanGo s e skip lines, skipEnd s e skip lines,
          f || lines.any (strContains s)⟩ := by
  induction lines with
  | nil => intro acc skip f; simp [scanGo, skipEnd]
  | cons l rest ih =>
    intro acc skip f
    simp only [List.foldl_cons, processLine_eq, List.any_cons]
    cases hs : strContains s l <;> cases he : strContains e l <;> cases skip <;>
      simp [scanGo, skipEnd, hs, he, ih, Bool.or_assoc]

/-- The state reached by the script on the given lines, in closed form. -/
theorem runScan_eq (s e : String) (lines : List String) :
    runScan s e lines =
      ⟨scanGo s e false lines, skipEnd s e false lines, lines.any (strContains s)⟩ := by
  simpa [runScan, initState] using foldl_processLine s e lines [] false false

/-- `new_lines` of the script run is `scanGo` from the non-skipping state. -/
theorem runScan_new_lines (s e : String) (lines : List String) :
    (runScan s e lines).new_lines = scanGo s e false lines := by
  simp [runScan_eq]

/-- `found_start` is set exactly when some line contains the start marker:
the start test in the loop is not guarded by `skip`. -/
theorem runScan_found (s e : String) (lines : List String) :
    (runScan s e lines).found_start = lines.any (strContains s) := by
  simp [runScan_eq]

/-- Lines without the start marker pass through the non-skipping scan. -/
theorem scanGo_no_start_pre (s e : String) (pre rest : List String)
    (h : ∀ l ∈ pre, strContains s l = false) :
    scanGo s e false (pre ++ rest) = pre ++ scanGo s e false rest := by
  induction pre with
  | nil => simp
  | cons a as ih =>
    have ha : strContains s a = false := h a (by simp)
    have h' : ∀ l ∈ as, strContains s l = false := fun l hl => h l (by simp [hl])
    simp [scanGo, ha, ih h']

/-- A line list without the start marker survives the scan verbatim. -/
theorem scanGo_no_start_id (s e : String) (lines : List String)
    (h : ∀ l ∈ lines, strContains s l = false) :
    scanGo s e false lines = lines := by
  simpa [scanGo] using scanGo_no_start_pre s e lines [] h

/-- Scanning in the skipping state drops everything up to and including
the first end-marker line, then resumes the ordinary scan. -/
theorem scanGo_true_eq_dropBlock (s e : String) (lines : List String) :
    scanGo s e true lines = scanGo s e false (dropBlock e lines) := by
  induction lines with
  | nil => simp [scanGo, dropBlock]
  | cons l rest ih =>
    cases he : strContains e l <;> simp [scanGo, dropBlock, he, ih]

/-- While the end marker is absent, the skipping scan drops the lines. -/
theorem scanGo_true_no_end (s e : String) (mid rest : List String)
    (h : ∀ l ∈ mid, strContains e l = false) :
    scanGo s e true (mid ++ rest) = scanGo s e true rest := by
  induction mid with
  | nil => simp
  | cons a as ih =>
    have ha : strContains e a = false := h a (by simp)
    have h' : ∀ l ∈ as, strContains e l = false := fun l hl => h l (by simp [hl])
    simp [scanGo, ha, ih h']

/-- A head line containing the start marker starts a block: the scan
continues after the block dropped by `dropBlock` (which inspects the
start line itself for the end marker as the code does). -/
theorem scanGo_start_head (s e st : String) (rest : List String)
    (hs : strContains s st = true) :
    scanGo s e false (st :: rest) = scanGo s e false (dropBlock e (st :: rest)) := by
  cases he : strContains e st
  · simp [scanGo, dropBlock, hs, he, scanGo_true_eq_dropBlock]
  · simp [scanGo, dropBlock, hs, he]

/-- The scan only ever copies input lines in order: a sublist. -/
theorem scanGo_sublist (s e : String) (skip : Bool) (lines : List String) :
    List.Sublist (scanGo s e skip lines) lines := by
  induction lines generalizing skip with
  | nil => simp [scanGo]
  | cons l rest ih =>
    cases hs : strContains s l <;> cases he : strContains e l <;> cases skip <;>
      simp [scanGo, hs, he] <;>
      first
        | exact List.Sublist.cons l (ih _)
        | exact ih _

/-- No surviving line contains the start marker: any line containing it
sets `skip` before the append test runs. -/
theorem scanGo_no_start_mem (s e : String) (skip : Bool) (lines : List String) :
    ∀ l ∈ scanGo s e skip lines, strContains s l = false := by
  induction lines generalizing skip with
  | nil => simp [scanGo]
  | cons l rest ih =>
    cases hs : strContains s l <;> cases he : strContains e l <;> cases skip <;>
      simp [scanGo, hs, he] <;>
      exact ih _

/-- When `found_start` is false the script leaves the file untouched. -/
theorem finalLines_of_not_found (s e : String) (lines : List String)
    (h : (runScan s e lines).found_start = false) :
    finalLines s e lines = lines := by
  simp [finalLines, h]

/-- If no line contains the start marker, `found_start` stays false. -/
theorem scan_no_start_not_found (s e : String) (lines : List String)
    (h : ∀ l ∈ lines, strContains s l = false) :
    (runScan s e lines).found_start = false := by
  rw [runScan_found]
  simp only [List.any_eq_false]
  intro x hx
  simp [h x hx]

/-- On lines never containing both markers at once, the loop of the code
and the spec state machine stay in lockstep from any pair of matching
states in which the skipping state implies the found flag. -/
theorem foldl_spec_agree (s e : String) (lines : List String) :
    ∀ (acc : List String) (b f : Bool), (b = true → f = true) →
      (∀ l ∈ lines, strContains s l = true → strContains e l = false) →
      lines.foldl (processLine s e) ⟨acc, b, f⟩ =
        ⟨(lines.foldl (specStep s e) ⟨acc, b, f⟩).output,
          (lines.foldl (specStep s e) ⟨acc, b, f⟩).insideBlock,
          (lines.foldl (specStep s e) ⟨acc, b, f⟩).startFound⟩ := by
  induction lines with
  | nil => intro acc b f hbf h; simp
  | cons l rest ih =>
    intro acc b f hbf h
    have hl : strContains s l = true → strContains e l = false := h l (by simp)
    have h' : ∀ x ∈ rest, strContains s x = true → strContains e x = false :=
      fun x hx => h x (by simp [hx])
    simp only [List.foldl_cons, processLine_eq]
    cases b with
    | false =>
      cases hs : strContains s l with
      | false =>
        cases he : strContains e l <;>
          simpa [specStep, hs, he] using ih (acc ++ [l]) false f (by simp) h'
      | true =>
        have he : strContains e l = false := hl hs
        simpa [specStep, hs, he] using ih acc true true (by simp) h'
    | true =>
      have hf : f = true := hbf rfl
      subst hf
      cases he : strContains e l with
      | true =>
        have hs : strContains s l = false := by
          cases hs : strContains s l
          · rfl
          · exact absurd (hl hs) (by simp [he])
        simpa [specStep, hs, he] using ih acc false true (by simp) h'
      | false =>
        cases hs : strContains s l <;>
          simpa [specStep, hs, he] using ih acc true true (by simp) h'

/-- Claim C1 fails as stated: on input ["S","E","x","S","y"] with markers
"S" and "E", removing the single run from the first start line (index 0)
through the next end line (index 1) and keeping everything else verbatim
would give ["x","S","y"], but the code outputs ["x"]: the unguarded start
test makes the second "S" initiate a second removal. -/
theorem second_start_counterexample :
    (runScan "S" "E" ["S", "E", "x", "S", "y"]).new_lines = ["x"] ∧
    (runScan "S" "E" ["S", "E", "x", "S", "y"]).new_lines ≠ ["x", "S", "y"] := by
  decide

/-- Claim C1 (amended): every line before the first start-marker line is
preserved verbatim and the run from that line through the next line
containing the end marker (that line itself when it also contains the
end marker; to end of file when none does) is removed, but the scan then
continues on the remaining lines from the initial state, so a later
start marker initiates another removal; the status is success. -/
theorem removal_prefix_then_rescan (s e st : String) (pre rest : List String)
    (hpre : ∀ l ∈ pre, strContains s l = false)
    (hst : strContains s st = true) :
    (runScan s e (pre ++ st :: rest)).new_lines =
        pre ++ (runScan s e (dropBlock e (st :: rest))).new_lines ∧
    (runScan s e (pre ++ st :: rest)).found_start = true := by
  constructor
  · rw [runScan_new_lines, runScan_new_lines,
      scanGo_no_start_pre s e pre (st :: rest) hpre,
      scanGo_start_head s e st rest hst]
  · rw [runScan_found]
    simp [hst]

/-- Claim C1 (amended) at a concrete input: prefix ["a"], start line "S",
remaining lines ["E","x","S","y"]. -/
theorem removal_prefix_then_rescan_witness :
    (runScan "S" "E" (["a"] ++ "S" :: ["E", "x", "S", "y"])).new_lines =
        ["a"] ++ (runScan "S" "E" (dropBlock "E" ("S" :: ["E", "x", "S", "y"]))).new_lines ∧
    (runScan "S" "E" (["a"] ++ "S" :: ["E", "x", "S", "y"])).found_start = true :=
  removal_prefix_then_rescan "S" "E" "S" ["a"] ["E", "x", "S", "y"]
    (by decide) (by decide)

/-- Claim C2 fails as stated: on input ["SE","x","E","y"] with markers
"S" and "E", the first line contains both markers; the code applies the
end test to that same line and removes it alone (output ["x","E","y"]),
while the state machine of spec section 4.1, whose branches are mutually
exclusive, only starts the block there and removes lines through the next
end-marker line (output ["y"]). -/
theorem code_ne_spec_machine_counterexample :
    (runScan "S" "E" ["SE", "x", "E", "y"]).new_lines = ["x", "E", "y"] ∧
    (specRun "S" "E" ["SE", "x", "E", "y"]).output = ["y"] ∧
    (runScan "S" "E" ["SE", "x", "E", "y"]).new_lines ≠
      (specRun "S" "E" ["SE", "x", "E", "y"]).output := by
  decide

/-- Claim C2 (amended): on every input in which no line contains both
markers at once, the output and reported status of the code equal those of the
state machine of spec section 4.1 step 3; when a line scanned outside a
block contains both markers, the code removes exactly that line (its end
test is applied to the same line), diverging from the spec machine. -/
theorem code_matches_spec_machine (s e : String) (lines : List String)
    (h : ∀ l ∈ lines, strContains s l = true → strContains e l = false) :
    (runScan s e lines).new_lines = (specRun s e lines).output ∧
    runStatus s e lines = specStatus s e lines := by
  have hrun : runScan s e lines =
      ⟨(specRun s e lines).output, (specRun s e lines).insideBlock,
        (specRun s e lines).startFound⟩ := by
    simpa [runScan, initState, specRun] using
      foldl_spec_agree s e lines [] false false (by simp) h
  constructor
  · rw [hrun]
  · simp [runStatus, specStatus, hrun]

/-- Claim C2 (amended) at a concrete input with no both-marker line. -/
theorem code_matches_spec_machine_witness :
    (runScan "S" "E" ["a", "S", "b", "E", "c"]).new_lines =
        (specRun "S" "E" ["a", "S", "b", "E", "c"]).output ∧
    runStatus "S" "E" ["a", "S", "b", "E", "c"] =
        specStatus "S" "E" ["a", "S", "b", "E", "c"] :=
  code_matches_spec_machine "S" "E" ["a", "S", "b", "E", "c"] (by decide)

/-- Claim C3: when the start marker occurs in exactly one line and the
end marker occurs in exactly one line after it, the file ends up equal to
the input with the lines from the start-marker line through the
end-marker line removed, all others preserved in order, and the status
is success. -/
theorem unique_block_removal (s e st en : String) (pre mid post : List String)
    (hst : strContains s st = true) (hen : strContains e en = true)
    (hpre_s : ∀ l ∈ pre, strContains s l = false)
    (hmid_s : ∀ l ∈ mid, strContains s l = false)
    (hen_s : strContains s en = false)
    (hpost_s : ∀ l ∈ post, strContains s l = false)
    (hpre_e : ∀ l ∈ pre, strContains e l = false)
    (hst_e : strContains e st = false)
    (hmid_e : ∀ l ∈ mid, strContains e l = false)
    (hpost_e : ∀ l ∈ post, strContains e l = false) :
    finalLines s e (pre ++ st :: (mid ++ en :: post)) = pre ++ post ∧
    runStatus s e (pre ++ st :: (mid ++ en :: post)) = Status.success := by
  have hfound : (runScan s e (pre ++ st :: (mid ++ en :: post))).found_start = true := by
    rw [runScan_found]; simp [hst]
  have hnew : (runScan s e (pre ++ st :: (mid ++ en :: post))).new_lines = pre ++ post := by
    rw [runScan_new_lines, scanGo_no_start_pre s e pre _ hpre_s]
    have h1 : scanGo s e false (st :: (mid ++ en :: post)) =
        scanGo s e true (mid ++ en :: post) := by
      simp [scanGo, hst, hst_e]
    have h2 : scanGo s e true (en :: post) = scanGo s e false post := by
      simp [scanGo, hen]
    rw [h1, scanGo_true_no_end s e mid (en :: post) hmid_e, h2,
      scanGo_no_start_id s e post hpost_s]
  exact ⟨by simp [finalLines, hfound, hnew], by simp [runStatus, hfound]⟩

/-- Claim C3 at the scenario from the spec: input
["a\n","START\n","b\n","END\n","c\n"] with markers "START" and "END"
yields ["a\n","c\n"] and success. -/
theorem unique_block_removal_witness :
    finalLines "START" "END" ["a\n", "START\n", "b\n", "END\n", "c\n"] =
        ["a\n", "c\n"] ∧
    runStatus "START" "END" ["a\n", "START\n", "b\n", "END\n", "c\n"] =
        Status.success := by
  simpa using unique_block_removal "START" "END" "START\n" "END\n"
    ["a\n"] ["b\n"] ["c\n"]
    (by decide) (by decide) (by decide) (by decide) (by decide) (by decide)
    (by decide) (by decide) (by decide) (by decide)

/-- Claim C4: when no line contains the start marker, the file content is
unchanged (no write is performed) and the status is not-found. -/
theorem absent_start_marker_unchanged (s e : String) (lines : List String)
    (h : ∀ l ∈ lines, strContains s l = false) :
    finalLines s e lines = lines ∧ runStatus s e lines = Status.notFound := by
  have hf := scan_no_start_not_found s e lines h
  exact ⟨by simp [finalLines, hf], by simp [runStatus, hf]⟩

/-- Claim C4 at the scenario from the spec: ["a\n","b\n"] with start
marker "START" stays unchanged with status not-found. -/
theorem absent_start_marker_unchanged_witness :
    finalLines "START" "END" ["a\n", "b\n"] = ["a\n", "b\n"] ∧
    runStatus "START" "END" ["a\n", "b\n"] = Status.notFound :=
  absent_start_marker_unchanged "START" "END" ["a\n", "b\n"] (by decide)

/-- Claim C5: when the start marker occurs but no line from the first
start-marker line onward contains the end marker, every line from the
start-marker line to end of file is removed, the file becomes the
preceding lines, and the status is success. -/
theorem unterminated_block_truncates (s e st : String) (pre rest : List String)
    (hpre : ∀ l ∈ pre, strContains s l = false)
    (hst : strContains s st = true)
    (hnoend : ∀ l ∈ st :: rest, strContains e l = false) :
    finalLines s e (pre ++ st :: rest) = pre ∧
    runStatus s e (pre ++ st :: rest) = Status.success := by
  have hst_e : strContains e st = false := hnoend st (by simp)
  have hrest_e : ∀ l ∈ rest, strContains e l = false :=
    fun l hl => hnoend l (by simp [hl])
  have hfound : (runScan s e (pre ++ st :: rest)).found_start = true := by
    rw [runScan_found]; simp [hst]
  have hnew : (runScan s e (pre ++ st :: rest)).new_lines = pre := by
    rw [runScan_new_lines, scanGo_no_start_pre s e pre _ hpre]
    have h1 : scanGo s e false (st :: rest) = scanGo s e true rest := by
      simp [scanGo, hst, hst_e]
    have h2 : scanGo s e true rest = scanGo s e true [] := by
      simpa using scanGo_true_no_end s e rest [] hrest_e
    rw [h1, h2]
    simp [scanGo]
  exact ⟨by simp [finalLines, hfound, hnew], by simp [runStatus, hfound]⟩

/-- Claim C5 at the boundary scenario: start marker on the last line,
["a\n","START\n"] becomes ["a\n"] with status success. -/
theorem unterminated_block_truncates_witness :
    finalLines "START" "END" ["a\n", "START\n"] = ["a\n"] ∧
    runStatus "START" "END" ["a\n", "START\n"] = Status.success := by
  simpa using unterminated_block_truncates "START" "END" "START\n" ["a\n"] []
    (by decide) (by decide) (by decide)

/-- Claim C6: when a run finds the start marker (and hence writes), a
second run on the written output reports not-found and leaves the file
unchanged: the first run never outputs a line containing the start
marker. -/
theorem second_run_not_found (s e : String) (lines : List String)
    (h : (runScan s e lines).found_start = true) :
    runStatus s e (finalLines s e lines) = Status.notFound ∧
    finalLines s e (finalLines s e lines) = finalLines s e lines := by
  have hout : finalLines s e lines = (runScan s e lines).new_lines := by
    simp [finalLines, h]
  have hns : ∀ l ∈ finalLines s e lines, strContains s l = false := by
    rw [hout, runScan_new_lines]
    exact scanGo_no_start_mem s e false lines
  have hf := scan_no_start_not_found s e (finalLines s e lines) hns
  exact ⟨by simp [runStatus, hf], finalLines_of_not_found s e (finalLines s e lines) hf⟩

/-- Claim C6 at a concrete input on which the first run succeeds. -/
theorem second_run_not_found_witness :
    runStatus "S" "E" (finalLines "S" "E" ["a", "S", "b", "E", "c"]) =
        Status.notFound ∧
    finalLines "S" "E" (finalLines "S" "E" ["a", "S", "b", "E", "c"]) =
        finalLines "S" "E" ["a", "S", "b", "E", "c"] :=
  second_run_not_found "S" "E" ["a", "S", "b", "E", "c"] (by decide)

/-- Claim C7: when the start marker never occurs, the run ends in the
not-found outcome — a normal return reporting the condition, distinct
from the success constructor — and the file is not mutated. -/
theorem missing_start_not_found_outcome (s e : String) (lines : List String)
    (h : ∀ l ∈ lines, strContains s l = false) :
    cleanupRun s e lines = RunOutcome.notFoundError ∧
    finalLines s e lines = lines := by
  have hf := scan_no_start_not_found s e lines h
  exact ⟨by simp [cleanupRun, hf], by simp [finalLines, hf]⟩

/-- Claim C7 at a concrete input without the start marker. -/
theorem missing_start_not_found_outcome_witness :
    cleanupRun "START" "END" ["a\n", "b\n"] = RunOutcome.notFoundError ∧
    finalLines "START" "END" ["a\n", "b\n"] = ["a\n", "b\n"] :=
  missing_start_not_found_outcome "START" "END" ["a\n", "b\n"] (by decide)

/-- Claim C8: the output line sequence is a sublist of the input — every
output line is one of the input lines, character for character, their
relative order is preserved, and no line is edited in place. -/
theorem output_sublist_of_input (s e : String) (lines : List String) :
    List.Sublist ((runScan s e lines).new_lines) lines := by
  rw [runScan_new_lines]
  exact scanGo_sublist s e false lines

/-- Claim C9: no line of the output contains the start marker: a line
containing it always sets `skip` before the append test, so it is never
appended, which is what makes a second run report not-found. -/
theorem output_free_of_start_marker (s e : String) (lines : List String) :
    ((runScan s e lines).new_lines.all fun l => !strContains s l) = true := by
  rw [runScan_new_lines, List.all_eq_true]
  intro l hl
  simp [scanGo_no_start_mem s e false lines l hl]

/-- Claim C10: a line containing the end marker that occurs before any
line containing the start marker is kept verbatim, and the scan continues
on the remaining lines from the initial state: outside a block the end
marker triggers no skipping and no state change. -/
theorem end_marker_outside_block_kept (s e en : String) (pre rest : List String)
    (hpre : ∀ l ∈ pre, strContains s l = false)
    (hen_s : strContains s en = false)
    (hen_e : strContains e en = true) :
    (runScan s e (pre ++ en :: rest)).new_lines =
        pre ++ en :: (runScan s e rest).new_lines ∧
    (runScan s e (pre ++ en :: rest)).found_start =
        (runScan s e rest).found_start := by
  constructor
  · rw [runScan_new_lines, runScan_new_lines, scanGo_no_start_pre s e pre _ hpre]
    simp [scanGo, hen_s]
  · rw [runScan_found, runScan_found]
    have hpre_any : pre.any (strContains s) = false := by
      rw [List.any_eq_false]
      intro x hx
      simp [hpre x hx]
    simp [hpre_any, hen_s]

/-- Claim C10 at a concrete input: the end line "E" before the start
line "S" is kept. -/
theorem end_marker_outside_block_kept_witness :
    (runScan "S" "E" (["a"] ++ "E" :: ["S", "x"])).new_lines =
        ["a"] ++ "E" :: (runScan "S" "E" ["S", "x"]).new_lines ∧
    (runScan "S" "E" (["a"] ++ "E" :: ["S", "x"])).found_start =
        (runScan "S" "E" ["S", "x"]).found_start :=
  end_marker_outside_block_kept "S" "E" "E" ["a"] ["S", "x"]
    (by decide) (by decide) (by decide)
